import Mathlib

/-!
# Verification of the `useXChat` conversational message core

Shallow embedding of the message store, request orchestrator and
presentation mapper of the `useXChat` hook.  JavaScript values that the
hook stores as message payloads are modelled by the inductive `Val`
(string / number / boolean / array, with JS truthiness); React refs and
state cells become explicit state threading (`ChatState`); the
closure-local variables `loadingMsgId` / `updatingMsgId` of one request
become a `RequestCtx` record.
-/

namespace XChat

/-- JS-style payload values (`SimpleType` in the source: string, number,
boolean or object; the object case that matters to the code is
`Array.isArray`, so arrays are modelled explicitly). -/
inductive Val
  | str (s : String)
  | num (n : Int)
  | bool (b : Bool)
  | arr (elems : List Val)

mutual

/-- Decidable equality of payload values (by hand: the nested `List Val`
defeats the deriving handler). -/
def Val.decEq : (a b : Val) → Decidable (a = b)
  | .str a, .str b =>
      if h : a = b then .isTrue (by rw [h]) else .isFalse (by simp [h])
  | .num a, .num b =>
      if h : a = b then .isTrue (by rw [h]) else .isFalse (by simp [h])
  | .bool a, .bool b =>
      if h : a = b then .isTrue (by rw [h]) else .isFalse (by simp [h])
  | .arr as, .arr bs =>
      match Val.decEqList as bs with
      | .isTrue h => .isTrue (by rw [h])
      | .isFalse h => .isFalse (by simp [h])
  | .str _, .num _ => .isFalse (by simp)
  | .str _, .bool _ => .isFalse (by simp)
  | .str _, .arr _ => .isFalse (by simp)
  | .num _, .str _ => .isFalse (by simp)
  | .num _, .bool _ => .isFalse (by simp)
  | .num _, .arr _ => .isFalse (by simp)
  | .bool _, .str _ => .isFalse (by simp)
  | .bool _, .num _ => .isFalse (by simp)
  | .bool _, .arr _ => .isFalse (by simp)
  | .arr _, .str _ => .isFalse (by simp)
  | .arr _, .num _ => .isFalse (by simp)
  | .arr _, .bool _ => .isFalse (by simp)

/-- Decidable equality of lists of payload values. -/
def Val.decEqList : (as bs : List Val) → Decidable (as = bs)
  | [], [] => .isTrue rfl
  | [], _ :: _ => .isFalse (by simp)
  | _ :: _, [] => .isFalse (by simp)
  | a :: as, b :: bs =>
      match Val.decEq a b, Val.decEqList as bs with
      | .isTrue h1, .isTrue h2 => .isTrue (by rw [h1, h2])
      | .isFalse h1, _ => .isFalse (by simp [h1])
      | _, .isFalse h2 => .isFalse (by simp [h2])

end

instance : DecidableEq Val := Val.decEq

/-- JS truthiness of a payload value: `''`, `0` and `false` are falsy;
arrays (objects) are always truthy. -/
def Val.truthy : Val → Bool
  | .str s => s != ""
  | .num n => n != 0
  | .bool b => b
  | .arr _ => true

/-- Whether a value is an array (`Array.isArray`). -/
def Val.isArr : Val → Bool
  | .arr _ => true
  | _ => false

/-- `MessageStatus` from the source. -/
inductive MessageStatus
  | «local»
  | loading
  | success
  | error
deriving DecidableEq

/-- Record identifiers.  The source builds id strings of the shapes
`default_<index>` and `msg_<counter>`, and default messages may carry a
caller-supplied id; the three disjoint shapes are modelled as
constructors. -/
inductive MsgId
  | defaultId (index : Nat)
  | msgId (counter : Nat)
  | custom (s : String)
deriving DecidableEq

/-- `MessageInfo` from the source. -/
structure MessageInfo where
  id : MsgId
  message : Val
  status : MessageStatus
deriving DecidableEq

/-- `DefaultMessageInfo`: message required, id and status optional. -/
structure DefaultMessageInfo where
  message : Val
  id : Option MsgId := none
  status : Option MessageStatus := none

/-- `XChatConfig`.  The agent collaborator only matters through whether it
is configured, so it is modelled as a flag; `requestPlaceholder` and
`requestFallback` are value-or-function fields (`Sum`), kept inside
`Option` for absence.  The fallback function's `error` argument is
modelled as its message string; the async fallback is modelled by its
resolved value. -/
structure XChatConfig where
  agent : Bool
  defaultMessages : Option (List DefaultMessageInfo) := none
  parser : Option (Val → Val) := none
  requestPlaceholder : Option (Val ⊕ (Val → List Val → Val)) := none
  requestFallback : Option (Val ⊕ (Val → String → List Val → Val)) := none

/-- JS truthiness of a value-or-function configuration field
(`if (requestPlaceholder)` / `if (requestFallback)`): absent is falsy, a
function is truthy, a plain value uses `Val.truthy`. -/
def optionTruthy {α : Type} : Option (Val ⊕ α) → Bool
  | none => false
  | some (.inl v) => v.truthy
  | some (.inr _) => true

/-- The message store (`messages`) together with the id-generating
counter (`idRef`). -/
structure ChatState where
  messages : List MessageInfo
  idCounter : Nat
deriving DecidableEq

/-- `createMessage` from the source: build a record with id
`msg_<counter>` and bump the counter. -/
def createMessage (st : ChatState) (message : Val) (status : MessageStatus) :
    MessageInfo × ChatState :=
  ({ id := .msgId st.idCounter, message := message, status := status },
   { st with idCounter := st.idCounter + 1 })

/-- Initial store seeding from `defaultMessages`: id defaults to
`default_<index>`, status defaults to `local`, both overridable by the
supplied info (the object spread in the source). -/
def seedMessages (defaultMessages : Option (List DefaultMessageInfo)) :
    List MessageInfo :=
  (defaultMessages.getD []).enum.map fun p =>
    { id := p.2.id.getD (.defaultId p.1)
      message := p.2.message
      status := p.2.status.getD .«local» }

/-- `toArray` from the source: spread an array value, wrap anything
else. -/
def toArray (item : Val) : List Val :=
  match item with
  | .arr elems => elems
  | other => [other]

/-- Display identifiers: the source record id, suffixed with the bubble
index (`` `id_index` ``) when one stored record fans out into several
display records. -/
inductive DisplayId
  | plain (id : MsgId)
  | indexed (id : MsgId) (index : Nat)
deriving DecidableEq

/-- A derived display record (`MessageInfo<ParsedMessage>` in the
source). -/
structure DisplayMessageInfo where
  id : DisplayId
  message : Val
  status : MessageStatus
deriving DecidableEq

/-- `parsedMessages` from the source: map each stored record through the
optional parser, flatten with `toArray`, and disambiguate ids with the
bubble index exactly when the fan-out produced more than one item. -/
def parsedMessages (parser : Option (Val → Val)) (messages : List MessageInfo) :
    List DisplayMessageInfo :=
  messages.flatMap fun agentMsg =>
    let rawParsedMsg := match parser with
      | some p => p agentMsg.message
      | none => agentMsg.message
    let bubbleMsgs := toArray rawParsedMsg
    bubbleMsgs.enum.map fun q =>
      { id := if bubbleMsgs.length > 1 then .indexed agentMsg.id q.1
              else .plain agentMsg.id
        message := q.2
        status := agentMsg.status }

/-- `getFilteredMessages` from the source: drop `loading` and `error`
records and keep the payloads. -/
def getFilteredMessages (msgs : List MessageInfo) : List Val :=
  (msgs.filter fun info => info.status != .loading && info.status != .error).map
    fun info => info.message

/-- `getRequestMessages` from the source: the filtered history of the
current store. -/
def getRequestMessages (st : ChatState) : List Val :=
  getFilteredMessages st.messages

/-- Comparison of a record id against a possibly-null tracked id
(`info.id === loadingMsgId` where the tracked id may be `null`). -/
def idEqOpt (i : MsgId) : Option MsgId → Bool
  | none => false
  | some j => i == j

/-- The closure-local state of one request: the submitted message and the
`loadingMsgId` / `updatingMsgId` variables. -/
structure RequestCtx where
  origMessage : Val
  loadingMsgId : Option MsgId
  updatingMsgId : Option MsgId
deriving DecidableEq

/-- Placeholder resolution inside `onRequest`: nothing when the
`requestPlaceholder` field is falsy, the value itself when static, the
function applied to the message and the filtered next history when a
function. -/
def resolvePlaceholder (placeholder : Option (Val ⊕ (Val → List Val → Val)))
    (message : Val) (nextMessages : List MessageInfo) : Option Val :=
  match placeholder with
  | none => none
  | some (.inl value) => if value.truthy then some value else none
  | some (.inr fn) => some (fn message (getFilteredMessages nextMessages))

/-- The body of `onRequest` past the agent check: append the `local`
record for the submitted message, then, when the placeholder policy is
truthy, append a `loading` placeholder record and remember its id as
`loadingMsgId`. -/
def onRequestBody (cfg : XChatConfig) (message : Val) (st : ChatState) :
    ChatState × RequestCtx :=
  let (localMsg, st1) := createMessage st message .«local»
  let withLocal := st.messages ++ [localMsg]
  match resolvePlaceholder cfg.requestPlaceholder message withLocal with
  | none =>
      ({ messages := withLocal, idCounter := st1.idCounter },
       { origMessage := message, loadingMsgId := none, updatingMsgId := none })
  | some placeholderMsg =>
      let (loadingMsg, st2) := createMessage st1 placeholderMsg .loading
      ({ messages := withLocal ++ [loadingMsg], idCounter := st2.idCounter },
       { origMessage := message, loadingMsgId := some loadingMsg.id,
         updatingMsgId := none })

/-- The message of the `Error` thrown by `onRequest` without an agent. -/
def configErrorMsg : String :=
  "If the onRequest method is used, the agent parameter is required!"

/-- `onRequest`: throw synchronously (before any store mutation) when no
agent is configured, otherwise run the body and hand the request context
to the agent's event handlers. -/
def onRequest (cfg : XChatConfig) (message : Val) (st : ChatState) :
    ChatState × Except String RequestCtx :=
  if cfg.agent then
    let r := onRequestBody cfg message st
    (r.1, .ok r.2)
  else
    (st, .error configErrorMsg)

/-- `updateMessage` from the source: if no record carries
`updatingMsgId`, create a fresh record, append it while dropping the
`loadingMsgId` placeholder, and remember the new id; otherwise rewrite
the tracked record's payload and status in place. -/
def updateMessage (st : ChatState) (ctx : RequestCtx) (message : Val)
    (status : MessageStatus) : ChatState × RequestCtx :=
  match st.messages.find? (fun info => idEqOpt info.id ctx.updatingMsgId) with
  | none =>
      let (msg, st1) := createMessage st message status
      ({ st1 with messages :=
          (st.messages.filter fun info => !(idEqOpt info.id ctx.loadingMsgId))
            ++ [msg] },
       { ctx with updatingMsgId := some msg.id })
  | some _ =>
      ({ st with messages := st.messages.map fun info =>
          if idEqOpt info.id ctx.updatingMsgId then
            { info with message := message, status := status }
          else info },
       ctx)

/-- The `onUpdate` handler: reconcile with status `loading`. -/
def onUpdateEvent (st : ChatState) (ctx : RequestCtx) (message : Val) :
    ChatState × RequestCtx :=
  updateMessage st ctx message .loading

/-- The `onSuccess` handler: reconcile with status `success`. -/
def onSuccessEvent (st : ChatState) (ctx : RequestCtx) (message : Val) :
    ChatState × RequestCtx :=
  updateMessage st ctx message .success

/-- Fallback resolution inside `onError`: nothing when `requestFallback`
is falsy, the value itself when static, the resolved function result
when a function (which receives the error and the current filtered
history). -/
def resolveFallback (fallback : Option (Val ⊕ (Val → String → List Val → Val)))
    (message : Val) (error : String) (st : ChatState) : Option Val :=
  match fallback with
  | none => none
  | some (.inl value) => if value.truthy then some value else none
  | some (.inr fn) => some (fn message error (getRequestMessages st))

/-- The `onError` handler: with a truthy fallback, remove the placeholder
and live-reply records and append one `error` record carrying the
fallback payload; without one, just remove those records. -/
def onErrorEvent (cfg : XChatConfig) (error : String) (st : ChatState)
    (ctx : RequestCtx) : ChatState :=
  match resolveFallback cfg.requestFallback ctx.origMessage error st with
  | some fallbackMsg =>
      let (errMsg, st1) := createMessage st fallbackMsg .error
      { st1 with messages :=
          (st.messages.filter fun info =>
            !(idEqOpt info.id ctx.loadingMsgId)
              && !(idEqOpt info.id ctx.updatingMsgId)) ++ [errMsg] }
  | none =>
      { st with messages :=
          st.messages.filter fun info =>
            !(idEqOpt info.id ctx.loadingMsgId)
              && !(idEqOpt info.id ctx.updatingMsgId) }

/-- Deliver a sequence of `onUpdate` events to one request. -/
def runUpdates (s : ChatState × RequestCtx) (updates : List Val) :
    ChatState × RequestCtx :=
  updates.foldl (fun acc u => onUpdateEvent acc.1 acc.2 u) s

/-- One submission followed by a stream of `onUpdate` events. -/
def streamScenario (cfg : XChatConfig) (msg : Val) (updates : List Val)
    (st0 : ChatState) : ChatState × RequestCtx :=
  runUpdates (onRequestBody cfg msg st0) updates

/-- The terminal event of one submission under the agent contract. -/
inductive TerminalEvent
  | succeed (message : Val)
  | fail (err : String)

/-- Apply the terminal event of a request. -/
def applyTerminal (cfg : XChatConfig) (term : TerminalEvent)
    (s : ChatState × RequestCtx) : ChatState :=
  match term with
  | .succeed m => (onSuccessEvent s.1 s.2 m).1
  | .fail e => onErrorEvent cfg e s.1 s.2

/-- All intermediate states while a stream of `onUpdate` events is
delivered, starting with the given state. -/
def updateTrace (s : ChatState × RequestCtx) : List Val → List (ChatState × RequestCtx)
  | [] => [s]
  | u :: us => s :: updateTrace (onUpdateEvent s.1 s.2 u) us

/-- Every store snapshot of one full submission lifecycle: the
pre-request store, the store after the synchronous part of `submit`, the
store after each `onUpdate`, and the store after the terminal event. -/
def lifecycleStates (cfg : XChatConfig) (msg : Val) (updates : List Val)
    (term : TerminalEvent) (st0 : ChatState) : List ChatState :=
  st0 :: (updateTrace (onRequestBody cfg msg st0) updates).map Prod.fst
    ++ [applyTerminal cfg term (streamScenario cfg msg updates st0)]

/-- The whole hook state: the shared store plus the closure state of
every request issued so far. -/
structure SysState where
  chat : ChatState
  reqs : List RequestCtx

/-- An external stimulus: a `submit` call, or an agent event delivered to
the `k`-th issued request. -/
inductive ChatEvent
  | submit (message : Val)
  | update (k : Nat) (message : Val)
  | succeed (k : Nat) (message : Val)
  | fail (k : Nat) (err : String)

/-- One step of the whole hook: `submit` runs `onRequest` (and registers
the new request context when it does not throw); an agent event runs the
corresponding handler with the addressed request's context. -/
def reqStep (cfg : XChatConfig) (s : SysState) : ChatEvent → SysState
  | .submit message =>
      match onRequest cfg message s.chat with
      | (st1, .ok ctx) => ⟨st1, s.reqs ++ [ctx]⟩
      | (st1, .error _) => ⟨st1, s.reqs⟩
  | .update k message =>
      match s.reqs[k]? with
      | some ctx =>
          let r := onUpdateEvent s.chat ctx message
          ⟨r.1, s.reqs.set k r.2⟩
      | none => s
  | .succeed k message =>
      match s.reqs[k]? with
      | some ctx =>
          let r := onSuccessEvent s.chat ctx message
          ⟨r.1, s.reqs.set k r.2⟩
      | none => s
  | .fail k err =>
      match s.reqs[k]? with
      | some ctx => ⟨onErrorEvent cfg err s.chat ctx, s.reqs⟩
      | none => s

/-- Run a whole sequence of submits and agent events. -/
def runEvents (cfg : XChatConfig) (s : SysState) (es : List ChatEvent) : SysState :=
  es.foldl (reqStep cfg) s

/-- The ids of the records of a store, in order. -/
def storeIds (msgs : List MessageInfo) : List MsgId :=
  msgs.map fun info => info.id

/-- Every generated (`msg_<n>`) id present in the store is below the
current counter: the well-formedness that the counter discipline
maintains. -/
def idsBelowB (st : ChatState) : Bool :=
  st.messages.all fun info =>
    match info.id with
    | .msgId n => n < st.idCounter
    | _ => true

/-- Modelled from the spec: the implementation of the `useSyncState` hook
is not part of the sources under verification (only its call site is);
§4.1/§9 of the spec describe it as one mutable cell behind two accessors,
where the setter writes the cell before any observer notification is
scheduled and the getter reads the cell directly, the reactive value
propagating to observers only later. -/
structure SyncState (α : Type) where
  cell : α
  reactive : α

/-- The setter's argument: a new value, or an updater function of the old
value. -/
inductive SyncSetterArg (α : Type)
  | value (v : α)
  | updater (f : α → α)

/-- What the committed value of a setter call is. -/
def SyncSetterArg.apply {α : Type} (arg : SyncSetterArg α) (old : α) : α :=
  match arg with
  | .value v => v
  | .updater f => f old

/-- Modelled from the spec: the synchronous getter reads the cell. -/
def SyncState.getValue {α : Type} (s : SyncState α) : α := s.cell

/-- Modelled from the spec: the setter commits to the cell immediately;
observer notification is a separate, later step. -/
def SyncState.setValue {α : Type} (s : SyncState α) (arg : SyncSetterArg α) :
    SyncState α :=
  { s with cell := arg.apply s.cell }

/-- Modelled from the spec: the deferred propagation of the committed
value to the reactive observers. -/
def SyncState.propagate {α : Type} (s : SyncState α) : SyncState α :=
  { s with reactive := s.cell }

/-- The spec's wording of the filtered history: the payloads of exactly
the `local` and `success` records, in their original order. -/
def settledPayloads (msgs : List MessageInfo) : List Val :=
  (msgs.filter fun info => info.status == .«local» || info.status == .success).map
    fun info => info.message

/-- An empty store with a fresh counter, for concrete instantiations. -/
def sampleChat : ChatState := { messages := [], idCounter := 0 }

/-- A minimal configuration with an agent, for concrete instantiations. -/
def sampleAgentCfg : XChatConfig := { agent := true }

/-- A configuration without an agent, for concrete instantiations. -/
def sampleNoAgentCfg : XChatConfig := { agent := false }

/-- A configuration with an agent and a static placeholder, for concrete
instantiations. -/
def samplePhCfg : XChatConfig :=
  { agent := true, requestPlaceholder := some (.inl (.str "thinking")) }

/-- A configuration with an agent, a static placeholder and a static
fallback, for concrete instantiations. -/
def sampleFbCfg : XChatConfig :=
  { samplePhCfg with requestFallback := some (.inl (.str "oops")) }

/-- What one store mutation of the orchestrator guarantees: the counter
never decreases, every id is an old id or a generated id at or above the
old counter, and id-uniqueness and counter-well-formedness are
preserved. -/
def GoodStep (st st' : ChatState) : Prop :=
  st.idCounter ≤ st'.idCounter ∧
  (∀ i ∈ storeIds st'.messages,
      i ∈ storeIds st.messages ∨ ∃ n, i = .msgId n ∧ st.idCounter ≤ n) ∧
  ((storeIds st.messages).Nodup → idsBelowB st = true →
      (storeIds st'.messages).Nodup) ∧
  (idsBelowB st = true → idsBelowB st' = true)

/-- Looking a record up by id (first match). -/
def lookupId (st : ChatState) (i : MsgId) : Option MessageInfo :=
  st.messages.find? fun info => info.id == i

/-- One-directional status evolution of a single record: stay put, or go
from `loading` to a terminal `success`/`error`.  In particular a `local`
record never changes status and nothing leaves `success` or `error`. -/
def statusStep (a b : MessageStatus) : Prop :=
  a = b ∨ (a = .loading ∧ (b = .success ∨ b = .error))

/-- Between two snapshots, every record present in both (same id) obeys
`statusStep`. -/
def recordStatusStep (s s' : ChatState) : Prop :=
  ∀ i r r', lookupId s i = some r → lookupId s' i = some r' →
    statusStep r.status r'.status

/-! ## Theorems -/

/-- A non-array payload passes through `toArray` as a singleton. -/
theorem toArray_of_not_arr (v : Val) (h : v.isArr = false) : toArray v = [v] := by
  cases v with
  | arr elems => simp [Val.isArr] at h
  | str s => rfl
  | num n => rfl
  | bool b => rfl

/-- Helper: any parser that acts as the identity on payloads, applied to a
store without array payloads, reproduces the store record-for-record. -/
theorem parsedMessages_id_aux (p : Option (Val → Val))
    (hp : ∀ v, (match p with | some f => f v | none => v) = v)
    (msgs : List MessageInfo) (h : ∀ info ∈ msgs, info.message.isArr = false) :
    parsedMessages p msgs
      = msgs.map fun m => ⟨.plain m.id, m.message, m.status⟩ := by
  induction msgs with
  | nil => rfl
  | cons m ms ih =>
      have hm := h m (List.mem_cons_self m ms)
      have hms : ∀ info ∈ ms, info.message.isArr = false :=
        fun info hi => h info (List.mem_cons_of_mem m hi)
      cases p with
      | none =>
          simp only [parsedMessages, List.flatMap_cons] at ih ⊢
          rw [ih hms]
          simp [toArray_of_not_arr m.message hm]
      | some f =>
          have hf : ∀ v, f v = v := hp
          simp only [parsedMessages, List.flatMap_cons] at ih ⊢
          rw [ih hms]
          simp [hf, toArray_of_not_arr m.message hm]

/-- Any `msg_<n>` id at or above the counter of a well-formed store is
fresh: no record of the store carries it. -/
theorem ne_msgId_of_idsBelow {st : ChatState} (hb : idsBelowB st = true)
    {n : Nat} (hn : st.idCounter ≤ n) :
    ∀ info ∈ st.messages, info.id ≠ .msgId n := by
  intro info hi he
  simp only [idsBelowB, List.all_eq_true] at hb
  have := hb info hi
  rw [he] at this
  simp only [decide_eq_true_eq] at this
  omega

/-- Tracked-id comparison against `null` is always false. -/
theorem idEqOpt_none (i : MsgId) : idEqOpt i none = false := rfl

/-- Tracked-id comparison is false on a different id. -/
theorem idEqOpt_some_ne {i j : MsgId} (h : i ≠ j) : idEqOpt i (some j) = false := by
  simp [idEqOpt, h]

/-- Tracked-id comparison is true on the id itself. -/
theorem idEqOpt_some_self (i : MsgId) : idEqOpt i (some i) = true := by
  simp [idEqOpt]

/-- `find?` over a `null` tracked id finds nothing. -/
theorem find?_updating_none (msgs : List MessageInfo) :
    (msgs.find? fun info => idEqOpt info.id none) = none := by
  apply List.find?_eq_none.mpr
  intro x _
  simp [idEqOpt]

/-- `find?` skips a prefix on which the predicate fails. -/
theorem find?_append_left_none {α : Type} {p : α → Bool} {l1 : List α}
    (l2 : List α) (h : l1.find? p = none) :
    (l1 ++ l2).find? p = l2.find? p := by
  induction l1 with
  | nil => rfl
  | cons a l ih =>
      by_cases hpa : p a
      · rw [List.find?_cons_of_pos _ hpa] at h
        exact absurd h (by simp)
      · rw [List.find?_cons_of_neg _ (by simp [hpa])] at h
        rw [List.cons_append, List.find?_cons_of_neg _ (by simp [hpa])]
        exact ih h

/-- A filter that keeps everything. -/
theorem filter_keep {msgs : List MessageInfo} {p : MessageInfo → Bool}
    (h : ∀ info ∈ msgs, p info = true) : msgs.filter p = msgs :=
  List.filter_eq_self.mpr h

/-- Filtering a `null` tracked id out removes nothing. -/
theorem filter_not_none (msgs : List MessageInfo) :
    (msgs.filter fun info => !(idEqOpt info.id none)) = msgs :=
  filter_keep (by intro info _; simp [idEqOpt])

/-- Filtering drops exactly a trailing record on which the predicate
fails when the predicate holds on the rest. -/
theorem filter_append_single_drop {base : List MessageInfo} {rec : MessageInfo}
    {p : MessageInfo → Bool} (hbase : ∀ info ∈ base, p info = true)
    (hrec : p rec = false) : (base ++ [rec]).filter p = base := by
  rw [List.filter_append, filter_keep hbase]
  simp [hrec]

/-- Selecting by id isolates a trailing record whose id occurs nowhere
earlier. -/
theorem filter_id_single {base : List MessageInfo} {lid : MsgId}
    {rec : MessageInfo} (hrec : rec.id = lid)
    (hbase : ∀ info ∈ base, info.id ≠ lid) :
    ((base ++ [rec]).filter fun info => info.id == lid) = [rec] := by
  rw [List.filter_append]
  have h1 : (base.filter fun info => info.id == lid) = [] := by
    simp only [List.filter_eq_nil_iff]
    intro a ha
    simp [hbase a ha]
  rw [h1]
  simp [hrec]

/-- The shape of `onRequest`'s synchronous part when the placeholder
policy resolves to nothing: the `local` record is appended and no id is
tracked. -/
theorem onRequestBody_no_placeholder (cfg : XChatConfig) (msg : Val)
    (st0 : ChatState)
    (hres : resolvePlaceholder cfg.requestPlaceholder msg
        (st0.messages ++ [⟨.msgId st0.idCounter, msg, .«local»⟩]) = none) :
    onRequestBody cfg msg st0
      = (⟨st0.messages ++ [⟨.msgId st0.idCounter, msg, .«local»⟩],
          st0.idCounter + 1⟩,
         ⟨msg, none, none⟩) := by
  simp [onRequestBody, createMessage, hres]

/-- The shape of `onRequest`'s synchronous part when the placeholder
policy resolves to a payload: the `local` record and a `loading`
placeholder are appended and the placeholder id is tracked. -/
theorem onRequestBody_placeholder (cfg : XChatConfig) (msg pv : Val)
    (st0 : ChatState)
    (hres : resolvePlaceholder cfg.requestPlaceholder msg
        (st0.messages ++ [⟨.msgId st0.idCounter, msg, .«local»⟩]) = some pv) :
    onRequestBody cfg msg st0
      = (⟨st0.messages ++ [⟨.msgId st0.idCounter, msg, .«local»⟩]
            ++ [⟨.msgId (st0.idCounter + 1), pv, .loading⟩],
          st0.idCounter + 2⟩,
         ⟨msg, some (.msgId (st0.idCounter + 1)), none⟩) := by
  simp [onRequestBody, createMessage, hres]

/-- `updateMessage` with no live id yet: create a record for the payload,
drop the tracked placeholder, and start tracking the new record. -/
theorem updateMessage_fresh (st : ChatState) (msg u : Val)
    (lopt : Option MsgId) (status : MessageStatus) :
    updateMessage st ⟨msg, lopt, none⟩ u status
      = (⟨(st.messages.filter fun info => !(idEqOpt info.id lopt))
            ++ [⟨.msgId st.idCounter, u, status⟩], st.idCounter + 1⟩,
         ⟨msg, lopt, some (.msgId st.idCounter)⟩) := by
  simp [updateMessage, find?_updating_none, createMessage]

/-- `updateMessage` with an established live id rewrites that record in
place, keeping its id, and changes nothing else. -/
theorem updateMessage_established (base : List MessageInfo) (lid : MsgId)
    (u v : Val) (oldStatus : MessageStatus) (cnt : Nat) (msg : Val)
    (lopt : Option MsgId) (status : MessageStatus)
    (hbase : ∀ info ∈ base, info.id ≠ lid) :
    updateMessage ⟨base ++ [⟨lid, u, oldStatus⟩], cnt⟩ ⟨msg, lopt, some lid⟩
        v status
      = (⟨base ++ [⟨lid, v, status⟩], cnt⟩, ⟨msg, lopt, some lid⟩) := by
  have hbasefind : (base.find? fun info => idEqOpt info.id (some lid)) = none := by
    apply List.find?_eq_none.mpr
    intro x hx
    simp [idEqOpt_some_ne (hbase x hx)]
  have hfind : ((base ++ [(⟨lid, u, oldStatus⟩ : MessageInfo)]).find?
      fun info => idEqOpt info.id (some lid)) = some ⟨lid, u, oldStatus⟩ := by
    rw [find?_append_left_none _ hbasefind]
    apply List.find?_cons_of_pos
    simp [idEqOpt]
  simp only [updateMessage, hfind]
  simp only [Prod.mk.injEq, ChatState.mk.injEq, and_true]
  rw [List.map_append]
  have hb2 : ∀ a ∈ base,
      (if idEqOpt a.id (some lid) = true then
        ({ a with message := v, status := status } : MessageInfo)
      else a) = a := by
    intro a ha
    simp [idEqOpt_some_ne (hbase a ha)]
  congr 1
  · exact (List.map_congr_left hb2).trans (List.map_id base)
  · simp [idEqOpt]

/-- Unfolding one delivered `onUpdate` event. -/
theorem runUpdates_cons (st : ChatState) (ctx : RequestCtx) (u : Val)
    (us : List Val) :
    runUpdates (st, ctx) (u :: us) = runUpdates (onUpdateEvent st ctx u) us := rfl

/-- Unfolding an empty stream of `onUpdate` events. -/
theorem runUpdates_nil (s : ChatState × RequestCtx) : runUpdates s [] = s := rfl

/-- Once a live record is established, any stream of `onUpdate` events
only rewrites that record's payload in place: the id, the rest of the
store, the counter and the tracked ids are unchanged, and the payload is
the last delivered chunk. -/
theorem runUpdates_established (base : List MessageInfo) (lid : MsgId)
    (hbase : ∀ info ∈ base, info.id ≠ lid) (msg : Val) (lopt : Option MsgId)
    (cnt : Nat) (us : List Val) : ∀ u : Val,
    runUpdates (⟨base ++ [⟨lid, u, .loading⟩], cnt⟩, ⟨msg, lopt, some lid⟩) us
      = (⟨base ++ [⟨lid, us.getLastD u, .loading⟩], cnt⟩,
         ⟨msg, lopt, some lid⟩) := by
  induction us with
  | nil => intro u; rfl
  | cons v vs ih =>
      intro u
      rw [runUpdates_cons]
      have h1 : onUpdateEvent (⟨base ++ [⟨lid, u, .loading⟩], cnt⟩ : ChatState)
          (⟨msg, lopt, some lid⟩ : RequestCtx) v
          = (⟨base ++ [⟨lid, v, .loading⟩], cnt⟩, ⟨msg, lopt, some lid⟩) :=
        updateMessage_established base lid u v .loading cnt msg lopt .loading hbase
      rw [h1, ih v, List.getLastD_cons]

/-- Prepending the `local` record of a submission keeps every id strictly
above the bumped counter fresh. -/
theorem base_fresh (st0 : ChatState) (msg : Val) (hb : idsBelowB st0 = true)
    {n : Nat} (hn : st0.idCounter < n) :
    ∀ info ∈ st0.messages ++ [(⟨.msgId st0.idCounter, msg, .«local»⟩ : MessageInfo)],
      info.id ≠ .msgId n := by
  intro info hi
  rcases List.mem_append.mp hi with h | h
  · exact ne_msgId_of_idsBelow hb (le_of_lt hn) info h
  · rw [List.mem_singleton] at h
    subst h
    simp only [ne_eq, MsgId.msgId.injEq]
    omega

/-- A truthy placeholder policy always resolves to some payload. -/
theorem resolvePlaceholder_truthy
    {placeholder : Option (Val ⊕ (Val → List Val → Val))}
    (hph : optionTruthy placeholder = true) (message : Val)
    (nextMessages : List MessageInfo) :
    ∃ pv, resolvePlaceholder placeholder message nextMessages = some pv := by
  rcases placeholder with _ | v | fn
  · simp [optionTruthy] at hph
  · exact ⟨v, by simp [resolvePlaceholder, optionTruthy.eq_def] at hph ⊢; simp [hph]⟩
  · exact ⟨fn message (getFilteredMessages nextMessages), rfl⟩

/-- Fallback resolution with no fallback configured. -/
theorem resolveFallback_none {fallback : Option (Val ⊕ (Val → String → List Val → Val))}
    (hfb : fallback = none) (message : Val) (error : String) (st : ChatState) :
    resolveFallback fallback message error st = none := by
  simp [resolveFallback, hfb]

/-- Fallback resolution with a truthy static fallback configured. -/
theorem resolveFallback_static {fallback : Option (Val ⊕ (Val → String → List Val → Val))}
    {fb : Val} (hfb : fallback = some (.inl fb)) (hft : fb.truthy = true)
    (message : Val) (error : String) (st : ChatState) :
    resolveFallback fallback message error st = some fb := by
  simp [resolveFallback, hfb, hft]

/-- C3: with no fallback configured, `onError` after a submission — with
an optional placeholder and any number of `onUpdate` events — returns the
store to exactly the pre-request content plus the single `local` record
of the submitted message; the placeholder and live-reply records are
removed and no `loading`- or `error`-status record of the request
remains. -/
theorem onError_no_fallback (cfg : XChatConfig) (msg : Val) (updates : List Val)
    (err : String) (st0 : ChatState) (_hag : cfg.agent = true)
    (hfb : cfg.requestFallback = none) (hb : idsBelowB st0 = true) :
    (applyTerminal cfg (.fail err) (streamScenario cfg msg updates st0)).messages
      = st0.messages ++ [⟨.msgId st0.idCounter, msg, .«local»⟩] := by
  rcases hres : resolvePlaceholder cfg.requestPlaceholder msg
      (st0.messages ++ [⟨.msgId st0.idCounter, msg, .«local»⟩]) with _ | pv
  · rw [streamScenario, onRequestBody_no_placeholder cfg msg st0 hres]
    cases updates with
    | nil =>
        rw [runUpdates_nil]
        simp only [applyTerminal, onErrorEvent, resolveFallback_none hfb]
        exact filter_keep (by intro info _; simp [idEqOpt])
    | cons u us =>
        rw [runUpdates_cons]
        simp only [onUpdateEvent]
        rw [updateMessage_fresh, filter_not_none]
        have hbase := base_fresh st0 msg hb (Nat.lt_succ_self _)
        rw [runUpdates_established _ _ hbase msg none _ us u]
        simp only [applyTerminal, onErrorEvent, resolveFallback_none hfb]
        apply filter_append_single_drop
        · intro info hi
          simp [idEqOpt, hbase info hi]
        · simp [idEqOpt]
  · rw [streamScenario, onRequestBody_placeholder cfg msg pv st0 hres]
    have hbase1 := base_fresh st0 msg hb (Nat.lt_succ_self _)
    have hbase2 := base_fresh st0 msg hb
      (show st0.idCounter < st0.idCounter + 2 by omega)
    cases updates with
    | nil =>
        rw [runUpdates_nil]
        simp only [applyTerminal, onErrorEvent, resolveFallback_none hfb]
        apply filter_append_single_drop
        · intro info hi
          simp [idEqOpt, hbase1 info hi]
        · simp [idEqOpt]
    | cons u us =>
        rw [runUpdates_cons]
        simp only [onUpdateEvent]
        rw [updateMessage_fresh]
        rw [filter_append_single_drop
          (by intro info hi; simp [idEqOpt, hbase1 info hi])
          (by simp [idEqOpt])]
        rw [runUpdates_established _ _ hbase2 msg _ _ us u]
        simp only [applyTerminal, onErrorEvent, resolveFallback_none hfb]
        apply filter_append_single_drop
        · intro info hi
          have h1 := hbase1 info hi
          have h2 := hbase2 info hi
          simp [idEqOpt, h1, h2]
        · simp [idEqOpt]

/-- Witness for C3: one placeholder, one update, then `onError`; only the
submitted `local` record is left. -/
theorem onError_no_fallback_witness :
    (applyTerminal samplePhCfg (.fail "boom")
        (streamScenario samplePhCfg (.str "q") [.str "a"] sampleChat)).messages
      = [⟨.msgId 0, .str "q", .«local»⟩] :=
  onError_no_fallback samplePhCfg (.str "q") [.str "a"] "boom" sampleChat
    rfl rfl (by decide)

/-- C4: with a truthy static fallback configured, `onError` after a
submission leaves exactly the pre-request content, the submitted `local`
record, and one new `error`-status record carrying the fallback payload;
the placeholder and live-reply records are removed and nothing else is
changed. -/
theorem onError_static_fallback (cfg : XChatConfig) (msg fb : Val)
    (updates : List Val) (err : String) (st0 : ChatState)
    (_hag : cfg.agent = true) (hfb : cfg.requestFallback = some (.inl fb))
    (hft : fb.truthy = true) (hb : idsBelowB st0 = true) :
    ∃ n : Nat,
      (applyTerminal cfg (.fail err) (streamScenario cfg msg updates st0)).messages
        = st0.messages ++ [⟨.msgId st0.idCounter, msg, .«local»⟩]
            ++ [⟨.msgId n, fb, .error⟩] := by
  rcases hres : resolvePlaceholder cfg.requestPlaceholder msg
      (st0.messages ++ [⟨.msgId st0.idCounter, msg, .«local»⟩]) with _ | pv
  · rw [streamScenario, onRequestBody_no_placeholder cfg msg st0 hres]
    cases updates with
    | nil =>
        refine ⟨st0.idCounter + 1, ?_⟩
        rw [runUpdates_nil]
        simp only [applyTerminal, onErrorEvent, resolveFallback_static hfb hft,
          createMessage]
        congr 1
        exact filter_keep (by intro info _; simp [idEqOpt])
    | cons u us =>
        refine ⟨st0.idCounter + 2, ?_⟩
        rw [runUpdates_cons]
        simp only [onUpdateEvent]
        rw [updateMessage_fresh, filter_not_none]
        have hbase := base_fresh st0 msg hb (Nat.lt_succ_self _)
        rw [runUpdates_established _ _ hbase msg none _ us u]
        simp only [applyTerminal, onErrorEvent, resolveFallback_static hfb hft,
          createMessage]
        congr 1
        apply filter_append_single_drop
        · intro info hi
          simp [idEqOpt, hbase info hi]
        · simp [idEqOpt]
  · rw [streamScenario, onRequestBody_placeholder cfg msg pv st0 hres]
    have hbase1 := base_fresh st0 msg hb (Nat.lt_succ_self _)
    have hbase2 := base_fresh st0 msg hb
      (show st0.idCounter < st0.idCounter + 2 by omega)
    cases updates with
    | nil =>
        refine ⟨st0.idCounter + 2, ?_⟩
        rw [runUpdates_nil]
        simp only [applyTerminal, onErrorEvent, resolveFallback_static hfb hft,
          createMessage]
        congr 1
        apply filter_append_single_drop
        · intro info hi
          simp [idEqOpt, hbase1 info hi]
        · simp [idEqOpt]
    | cons u us =>
        refine ⟨st0.idCounter + 3, ?_⟩
        rw [runUpdates_cons]
        simp only [onUpdateEvent]
        rw [updateMessage_fresh]
        rw [filter_append_single_drop
          (by intro info hi; simp [idEqOpt, hbase1 info hi])
          (by simp [idEqOpt])]
        rw [runUpdates_established _ _ hbase2 msg _ _ us u]
        simp only [applyTerminal, onErrorEvent, resolveFallback_static hfb hft,
          createMessage]
        congr 1
        apply filter_append_single_drop
        · intro info hi
          have h1 := hbase1 info hi
          have h2 := hbase2 info hi
          simp [idEqOpt, h1, h2]
        · simp [idEqOpt]

/-- Witness for C4: placeholder configured, no updates, static fallback
`'oops'`; the store ends with the `local` record and one `error` record
carrying the fallback payload. -/
theorem onError_static_fallback_witness :
    ∃ n : Nat,
      (applyTerminal sampleFbCfg (.fail "boom")
          (streamScenario sampleFbCfg (.str "q") [] sampleChat)).messages
        = [⟨.msgId 0, .str "q", .«local»⟩] ++ [⟨.msgId n, .str "oops", .error⟩] :=
  onError_static_fallback sampleFbCfg (.str "q") (.str "oops") [] "boom"
    sampleChat rfl rfl (by decide) (by decide)

/-- C1: with a configured (truthy) placeholder and an agent that emits
two `onUpdate` events then `onSuccess` after one submit: after the first
`onUpdate` the placeholder record is gone from the store and exactly one
record carries the live id — status `loading`, payload the first chunk;
after the second `onUpdate` the same id carries the second chunk, still
`loading`; after `onSuccess` the same id carries the final payload with
status `success`. -/
theorem streaming_reconciliation (cfg : XChatConfig) (msg u1 u2 fin : Val)
    (st0 : ChatState) (_hag : cfg.agent = true)
    (hph : optionTruthy cfg.requestPlaceholder = true)
    (hb : idsBelowB st0 = true) :
    (∀ info ∈ (streamScenario cfg msg [u1] st0).1.messages,
        info.id ≠ .msgId (st0.idCounter + 1)) ∧
      (streamScenario cfg msg [u1] st0).1.messages.filter
          (fun info => info.id == .msgId (st0.idCounter + 2))
        = [⟨.msgId (st0.idCounter + 2), u1, .loading⟩] ∧
      (streamScenario cfg msg [u1] st0).2.updatingMsgId
        = some (.msgId (st0.idCounter + 2)) ∧
      (streamScenario cfg msg [u1, u2] st0).1.messages.filter
          (fun info => info.id == .msgId (st0.idCounter + 2))
        = [⟨.msgId (st0.idCounter + 2), u2, .loading⟩] ∧
      (streamScenario cfg msg [u1, u2] st0).2.updatingMsgId
        = some (.msgId (st0.idCounter + 2)) ∧
      (onSuccessEvent (streamScenario cfg msg [u1, u2] st0).1
            (streamScenario cfg msg [u1, u2] st0).2 fin).1.messages.filter
          (fun info => info.id == .msgId (st0.idCounter + 2))
        = [⟨.msgId (st0.idCounter + 2), fin, .success⟩] := by
  obtain ⟨pv, hres⟩ := resolvePlaceholder_truthy hph msg
    (st0.messages ++ [⟨.msgId st0.idCounter, msg, .«local»⟩])
  have hbase1 := base_fresh st0 msg hb (Nat.lt_succ_self _)
  have hbase2 := base_fresh st0 msg hb
    (show st0.idCounter < st0.idCounter + 2 by omega)
  have h1 : streamScenario cfg msg [u1] st0
      = (⟨(st0.messages ++ [⟨.msgId st0.idCounter, msg, .«local»⟩])
            ++ [⟨.msgId (st0.idCounter + 2), u1, .loading⟩],
          st0.idCounter + 3⟩,
         ⟨msg, some (.msgId (st0.idCounter + 1)),
          some (.msgId (st0.idCounter + 2))⟩) := by
    rw [streamScenario, onRequestBody_placeholder cfg msg pv st0 hres,
      runUpdates_cons]
    simp only [onUpdateEvent]
    rw [updateMessage_fresh]
    rw [filter_append_single_drop
      (by intro info hi; simp [idEqOpt, hbase1 info hi])
      (by simp [idEqOpt])]
    rw [runUpdates_nil]
  have h2 : streamScenario cfg msg [u1, u2] st0
      = (⟨(st0.messages ++ [⟨.msgId st0.idCounter, msg, .«local»⟩])
            ++ [⟨.msgId (st0.idCounter + 2), u2, .loading⟩],
          st0.idCounter + 3⟩,
         ⟨msg, some (.msgId (st0.idCounter + 1)),
          some (.msgId (st0.idCounter + 2))⟩) := by
    have hsplit : streamScenario cfg msg [u1, u2] st0
        = runUpdates (streamScenario cfg msg [u1] st0) [u2] := rfl
    rw [hsplit, h1, runUpdates_cons]
    have hstep := updateMessage_established
      (st0.messages ++ [⟨.msgId st0.idCounter, msg, .«local»⟩])
      (.msgId (st0.idCounter + 2)) u1 u2 .loading (st0.idCounter + 3) msg
      (some (.msgId (st0.idCounter + 1))) .loading hbase2
    simp only [onUpdateEvent]
    rw [hstep, runUpdates_nil]
  have h3 : (onSuccessEvent (streamScenario cfg msg [u1, u2] st0).1
        (streamScenario cfg msg [u1, u2] st0).2 fin)
      = (⟨(st0.messages ++ [⟨.msgId st0.idCounter, msg, .«local»⟩])
            ++ [⟨.msgId (st0.idCounter + 2), fin, .success⟩],
          st0.idCounter + 3⟩,
         ⟨msg, some (.msgId (st0.idCounter + 1)),
          some (.msgId (st0.idCounter + 2))⟩) := by
    rw [h2]
    simp only [onSuccessEvent]
    exact updateMessage_established
      (st0.messages ++ [⟨.msgId st0.idCounter, msg, .«local»⟩])
      (.msgId (st0.idCounter + 2)) u2 fin .loading (st0.idCounter + 3) msg
      (some (.msgId (st0.idCounter + 1))) .success hbase2
  refine ⟨?_, ?_, ?_, ?_, ?_, ?_⟩
  · rw [h1]
    intro info hi
    rcases List.mem_append.mp hi with h | h
    · exact hbase1 info h
    · rw [List.mem_singleton] at h
      subst h
      simp only [ne_eq, MsgId.msgId.injEq]
      omega
  · rw [h1]
    exact filter_id_single rfl hbase2
  · rw [h1]
  · rw [h2]
    exact filter_id_single rfl hbase2
  · rw [h2]
  · rw [h3]
    exact filter_id_single rfl hbase2

/-- Witness for C1 on an empty store: payloads `'a1'`, `'a2'`, `'done'`
streamed for one submit. -/
theorem streaming_reconciliation_witness :
    (∀ info ∈ (streamScenario samplePhCfg (.str "q") [.str "a1"] sampleChat).1.messages,
        info.id ≠ .msgId 1) ∧
      (streamScenario samplePhCfg (.str "q") [.str "a1"] sampleChat).1.messages.filter
          (fun info => info.id == .msgId 2)
        = [⟨.msgId 2, .str "a1", .loading⟩] ∧
      (streamScenario samplePhCfg (.str "q") [.str "a1"] sampleChat).2.updatingMsgId
        = some (.msgId 2) ∧
      (streamScenario samplePhCfg (.str "q") [.str "a1", .str "a2"] sampleChat).1.messages.filter
          (fun info => info.id == .msgId 2)
        = [⟨.msgId 2, .str "a2", .loading⟩] ∧
      (streamScenario samplePhCfg (.str "q") [.str "a1", .str "a2"] sampleChat).2.updatingMsgId
        = some (.msgId 2) ∧
      (onSuccessEvent (streamScenario samplePhCfg (.str "q") [.str "a1", .str "a2"] sampleChat).1
            (streamScenario samplePhCfg (.str "q") [.str "a1", .str "a2"] sampleChat).2
            (.str "done")).1.messages.filter
          (fun info => info.id == .msgId 2)
        = [⟨.msgId 2, .str "done", .success⟩] :=
  streaming_reconciliation samplePhCfg (.str "q") (.str "a1") (.str "a2")
    (.str "done") sampleChat rfl (by decide) (by decide)

/-- C5: the filtered-history function returns exactly the payloads of the
`local`- and `success`-status records, in their original relative order,
and never those of `loading`- or `error`-status records. -/
theorem getFilteredMessages_settled (msgs : List MessageInfo) :
    getFilteredMessages msgs = settledPayloads msgs := by
  unfold getFilteredMessages settledPayloads
  congr 1
  apply List.filter_congr
  intro info _
  obtain ⟨i, v, s⟩ := info
  cases s <;> rfl

/-- C6 counterexample: with the parser absent, a store whose single
record carries an array payload derives TWO display records, so the
derived display records are not one-to-one with the stored records. -/
theorem parsedMessages_identity_cex :
    (parsedMessages none [⟨.msgId 0, .arr [.num 1, .num 2], .«local»⟩]).length
      ≠ [(⟨.msgId 0, .arr [.num 1, .num 2], .«local»⟩ : MessageInfo)].length := by
  decide

/-- C6 (amended): when the parser is the identity function or absent and
no stored payload is itself an array, the derived display records equal
the stored records one-to-one: same count, same order, each id the plain
embedding of its source record's id, same payload and status.  (An array
payload is fanned out by `toArray` even under the identity parser, which
is what the unamended claim misses.) -/
theorem parsedMessages_identity_roundtrip (msgs : List MessageInfo)
    (h : ∀ info ∈ msgs, info.message.isArr = false) :
    parsedMessages none msgs
        = msgs.map (fun m => ⟨.plain m.id, m.message, m.status⟩) ∧
      parsedMessages (some fun v => v) msgs
        = msgs.map (fun m => ⟨.plain m.id, m.message, m.status⟩) :=
  ⟨parsedMessages_id_aux none (fun _ => rfl) msgs h,
   parsedMessages_id_aux (some fun v => v) (fun _ => rfl) msgs h⟩

/-- Witness for C6 (amended) at a concrete store. -/
theorem parsedMessages_identity_roundtrip_witness :
    parsedMessages none [⟨.msgId 0, .str "hi", .«local»⟩]
        = [⟨.plain (.msgId 0), .str "hi", .«local»⟩] ∧
      parsedMessages (some fun v => v) [⟨.msgId 0, .str "hi", .«local»⟩]
        = [⟨.plain (.msgId 0), .str "hi", .«local»⟩] :=
  parsedMessages_identity_roundtrip [⟨.msgId 0, .str "hi", .«local»⟩] (by decide)

/-- Extracting the counter bound for one record of a well-formed store. -/
theorem idsBelowB_elim {st : ChatState} (hb : idsBelowB st = true)
    {info : MessageInfo} (hi : info ∈ st.messages) {n : Nat}
    (hn : info.id = .msgId n) : n < st.idCounter := by
  simp only [idsBelowB, List.all_eq_true] at hb
  have := hb info hi
  rw [hn] at this
  simpa using this

/-- Establishing well-formedness from the per-record counter bounds. -/
theorem idsBelowB_intro {msgs : List MessageInfo} {c : Nat}
    (h : ∀ info ∈ msgs, ∀ n, info.id = .msgId n → n < c) :
    idsBelowB ⟨msgs, c⟩ = true := by
  simp only [idsBelowB, List.all_eq_true]
  intro info hi
  cases hid : info.id with
  | msgId n => simpa using h info hi n hid
  | defaultId k => rfl
  | custom s => rfl

/-- A store untouched is a good step. -/
theorem goodStep_refl (st : ChatState) : GoodStep st st :=
  ⟨le_refl _, fun _ hi => .inl hi, fun h _ => h, fun h => h⟩

/-- Good steps compose. -/
theorem goodStep_trans {a b c : ChatState} (h1 : GoodStep a b)
    (h2 : GoodStep b c) : GoodStep a c := by
  obtain ⟨hc1, hi1, hn1, hb1⟩ := h1
  obtain ⟨hc2, hi2, hn2, hb2⟩ := h2
  refine ⟨le_trans hc1 hc2, ?_, ?_, fun h => hb2 (hb1 h)⟩
  · intro i hi
    rcases hi2 i hi with h | ⟨n, rfl, hn⟩
    · rcases hi1 i h with h' | ⟨n, rfl, hn⟩
      · exact .inl h'
      · exact .inr ⟨n, rfl, hn⟩
    · exact .inr ⟨n, rfl, le_trans hc1 hn⟩
  · intro hnd hbl
    exact hn2 (hn1 hnd hbl) (hb1 hbl)

/-- The master shape: keep a sublist of the store and append freshly
generated records whose counters sit between the old and the new counter
value. -/
theorem goodStep_sub_append (st : ChatState) (keep : List MessageInfo)
    (hkeep : keep.Sublist st.messages) (newRecs : List MessageInfo)
    (c' : Nat) (hc : st.idCounter ≤ c')
    (hfresh : ∀ r ∈ newRecs, ∃ n, r.id = .msgId n ∧ st.idCounter ≤ n ∧ n < c')
    (hnd : (storeIds newRecs).Nodup) :
    GoodStep st ⟨keep ++ newRecs, c'⟩ := by
  have hsub : (storeIds keep).Sublist (storeIds st.messages) := hkeep.map _
  refine ⟨hc, ?_, ?_, ?_⟩
  · intro i hi
    rw [storeIds, List.map_append, List.mem_append] at hi
    rcases hi with h | h
    · exact .inl (hsub.subset h)
    · rw [List.mem_map] at h
      obtain ⟨r, hr, rfl⟩ := h
      obtain ⟨n, he, h1, _⟩ := hfresh r hr
      exact .inr ⟨n, he, h1⟩
  · intro hnodup hbelow
    rw [storeIds, List.map_append]
    rw [List.nodup_append]
    refine ⟨hsub.nodup hnodup, hnd, ?_⟩
    intro a ha hb
    rw [List.mem_map] at hb
    obtain ⟨r, hr, rfl⟩ := hb
    obtain ⟨n, he, h1, _⟩ := hfresh r hr
    have ha' := hsub.subset ha
    rw [storeIds, List.mem_map] at ha'
    obtain ⟨info, hinfo, hid⟩ := ha'
    exact ne_msgId_of_idsBelow hbelow h1 info hinfo (hid.trans he)
  · intro hbelow
    apply idsBelowB_intro
    intro info hi n hn
    rw [List.mem_append] at hi
    rcases hi with h | h
    · exact lt_of_lt_of_le (idsBelowB_elim hbelow (hkeep.subset h) hn) hc
    · obtain ⟨m, he, _, h2⟩ := hfresh info h
      rw [hn] at he
      cases he
      exact h2

/-- A step that keeps the ids and the counter unchanged is good. -/
theorem goodStep_ids_eq {st st' : ChatState}
    (hids : storeIds st'.messages = storeIds st.messages)
    (hc : st'.idCounter = st.idCounter) : GoodStep st st' := by
  refine ⟨le_of_eq hc.symm, ?_, ?_, ?_⟩
  · intro i hi
    rw [hids] at hi
    exact .inl hi
  · intro hnodup _
    rw [hids]
    exact hnodup
  · intro hbelow
    simp only [idsBelowB, List.all_eq_true] at hbelow ⊢
    intro info hi
    have : info.id ∈ storeIds st.messages := by
      rw [← hids, storeIds, List.mem_map]
      exact ⟨info, hi, rfl⟩
    rw [storeIds, List.mem_map] at this
    obtain ⟨info0, hinfo0, hid⟩ := this
    have h0 := hbelow info0 hinfo0
    rw [hid] at h0
    rw [hc]
    exact h0

/-- The in-place branch of `updateMessage` keeps every id. -/
theorem storeIds_map_update (msgs : List MessageInfo) (o : Option MsgId)
    (v : Val) (s : MessageStatus) :
    storeIds (msgs.map fun info =>
        if idEqOpt info.id o then { info with message := v, status := s }
        else info)
      = storeIds msgs := by
  simp only [storeIds, List.map_map]
  apply List.map_congr_left
  intro a _
  by_cases h : idEqOpt a.id o <;> simp [Function.comp, h]

/-- The synchronous part of a submission is a good step. -/
theorem goodStep_onRequestBody (cfg : XChatConfig) (msg : Val)
    (st : ChatState) : GoodStep st (onRequestBody cfg msg st).1 := by
  rcases hres : resolvePlaceholder cfg.requestPlaceholder msg
      (st.messages ++ [⟨.msgId st.idCounter, msg, .«local»⟩]) with _ | pv
  · rw [onRequestBody_no_placeholder cfg msg st hres]
    apply goodStep_sub_append st st.messages (List.Sublist.refl _) _ _
      (by omega)
    · intro r hr
      rw [List.mem_singleton] at hr
      subst hr
      exact ⟨st.idCounter, rfl, le_refl _, by omega⟩
    · simp [storeIds]
  · rw [onRequestBody_placeholder cfg msg pv st hres]
    rw [List.append_assoc]
    apply goodStep_sub_append st st.messages (List.Sublist.refl _) _ _
      (by omega)
    · intro r hr
      rcases List.mem_cons.mp hr with rfl | hr
      · exact ⟨st.idCounter, rfl, le_refl _, by omega⟩
      · rcases List.mem_singleton.mp hr with rfl
        exact ⟨st.idCounter + 1, rfl, by omega, by omega⟩
    · simp [storeIds]

/-- Any `updateMessage` call is a good step. -/
theorem goodStep_updateMessage (st : ChatState) (ctx : RequestCtx) (v : Val)
    (s : MessageStatus) : GoodStep st (updateMessage st ctx v s).1 := by
  rcases hfind : st.messages.find?
      (fun info => idEqOpt info.id ctx.updatingMsgId) with _ | rec
  · simp only [updateMessage, hfind, createMessage]
    apply goodStep_sub_append st _ (List.filter_sublist _) _ _ (by omega)
    · intro r hr
      rw [List.mem_singleton] at hr
      subst hr
      exact ⟨st.idCounter, rfl, le_refl _, by omega⟩
    · simp [storeIds]
  · simp only [updateMessage, hfind]
    exact goodStep_ids_eq (storeIds_map_update _ _ _ _) rfl

/-- Any `onError` handling is a good step. -/
theorem goodStep_onErrorEvent (cfg : XChatConfig) (err : String)
    (st : ChatState) (ctx : RequestCtx) :
    GoodStep st (onErrorEvent cfg err st ctx) := by
  rcases hres : resolveFallback cfg.requestFallback ctx.origMessage err st
      with _ | fb
  · simp only [onErrorEvent, hres]
    have := goodStep_sub_append st
      (st.messages.filter fun info =>
        !(idEqOpt info.id ctx.loadingMsgId)
          && !(idEqOpt info.id ctx.updatingMsgId))
      (List.filter_sublist _) [] st.idCounter (le_refl _)
      (by intro r hr; exact absurd hr (List.not_mem_nil r)) (by simp [storeIds])
    simpa using this
  · simp only [onErrorEvent, hres, createMessage]
    apply goodStep_sub_append st _ (List.filter_sublist _) _ _ (by omega)
    · intro r hr
      rw [List.mem_singleton] at hr
      subst hr
      exact ⟨st.idCounter, rfl, le_refl _, by omega⟩
    · simp [storeIds]

/-- Every external stimulus is a good step on the shared store. -/
theorem goodStep_reqStep (cfg : XChatConfig) (s : SysState) (e : ChatEvent) :
    GoodStep s.chat (reqStep cfg s e).chat := by
  cases e with
  | submit m =>
      cases hag : cfg.agent with
      | false => simp only [reqStep, onRequest, hag]; exact goodStep_refl _
      | true =>
          simp only [reqStep, onRequest, hag]
          exact goodStep_onRequestBody cfg m s.chat
  | update k m =>
      rcases hk : s.reqs[k]? with _ | ctx
      · simp only [reqStep, hk]
        exact goodStep_refl _
      · simp only [reqStep, hk, onUpdateEvent]
        exact goodStep_updateMessage s.chat ctx m .loading
  | succeed k m =>
      rcases hk : s.reqs[k]? with _ | ctx
      · simp only [reqStep, hk]
        exact goodStep_refl _
      · simp only [reqStep, hk, onSuccessEvent]
        exact goodStep_updateMessage s.chat ctx m .success
  | fail k err =>
      rcases hk : s.reqs[k]? with _ | ctx
      · simp only [reqStep, hk]
        exact goodStep_refl _
      · simp only [reqStep, hk]
        exact goodStep_onErrorEvent cfg err s.chat ctx

/-- Whole event sequences are good steps. -/
theorem goodStep_runEvents (cfg : XChatConfig) :
    ∀ (es : List ChatEvent) (s : SysState),
      GoodStep s.chat (runEvents cfg s es).chat
  | [], _ => goodStep_refl _
  | e :: es, s =>
      goodStep_trans (goodStep_reqStep cfg s e)
        (goodStep_runEvents cfg es (reqStep cfg s e))

/-- C2: starting from a store with pairwise-distinct ids and a
well-formed counter, after any sequence of `submit` calls and agent event
deliveries the ids are still pairwise distinct, the counter is
well-formed and has not decreased, and every id now present is either an
original id or a generated id at or above the original counter — so a
generated id is never reused for a different record. -/
theorem ids_unique_invariant (cfg : XChatConfig) (s0 : SysState)
    (es : List ChatEvent) (hnd : (storeIds s0.chat.messages).Nodup)
    (hb : idsBelowB s0.chat = true) :
    (storeIds (runEvents cfg s0 es).chat.messages).Nodup ∧
      idsBelowB (runEvents cfg s0 es).chat = true ∧
      s0.chat.idCounter ≤ (runEvents cfg s0 es).chat.idCounter ∧
      ∀ i ∈ storeIds (runEvents cfg s0 es).chat.messages,
        i ∈ storeIds s0.chat.messages
          ∨ ∃ n, i = .msgId n ∧ s0.chat.idCounter ≤ n := by
  obtain ⟨hc, hnew, hndp, hbp⟩ := goodStep_runEvents cfg es s0
  exact ⟨hndp hnd hb, hbp hb, hc, hnew⟩

/-- Witness for C2: a submit with placeholder, one update, a success and
a second submit, from the empty store. -/
theorem ids_unique_invariant_witness :
    (storeIds (runEvents samplePhCfg ⟨sampleChat, []⟩
        [.submit (.str "q"), .update 0 (.str "a"), .succeed 0 (.str "b"),
          .submit (.str "r")]).chat.messages).Nodup ∧
      idsBelowB (runEvents samplePhCfg ⟨sampleChat, []⟩
        [.submit (.str "q"), .update 0 (.str "a"), .succeed 0 (.str "b"),
          .submit (.str "r")]).chat = true ∧
      sampleChat.idCounter ≤ (runEvents samplePhCfg ⟨sampleChat, []⟩
        [.submit (.str "q"), .update 0 (.str "a"), .succeed 0 (.str "b"),
          .submit (.str "r")]).chat.idCounter ∧
      ∀ i ∈ storeIds (runEvents samplePhCfg ⟨sampleChat, []⟩
        [.submit (.str "q"), .update 0 (.str "a"), .succeed 0 (.str "b"),
          .submit (.str "r")]).chat.messages,
        i ∈ storeIds sampleChat.messages
          ∨ ∃ n, i = .msgId n ∧ sampleChat.idCounter ≤ n :=
  ids_unique_invariant samplePhCfg ⟨sampleChat, []⟩
    [.submit (.str "q"), .update 0 (.str "a"), .succeed 0 (.str "b"),
      .submit (.str "r")] (by decide) (by decide)

/-- `find?` keeps its result under a right extension. -/
theorem find?_append_left_some {α : Type} {p : α → Bool} {l1 : List α}
    {r : α} (l2 : List α) (h : l1.find? p = some r) :
    (l1 ++ l2).find? p = some r := by
  induction l1 with
  | nil => exact absurd h (by simp)
  | cons a l ih =>
      by_cases hpa : p a
      · rw [List.find?_cons_of_pos _ hpa] at h
        rw [List.cons_append, List.find?_cons_of_pos _ hpa]
        exact h
      · rw [List.find?_cons_of_neg _ (by simp [hpa])] at h
        rw [List.cons_append, List.find?_cons_of_neg _ (by simp [hpa])]
        exact ih h

/-- In a store with pairwise-distinct ids, records are determined by
their id. -/
theorem eq_of_nodup_ids {l : List MessageInfo}
    (hnd : (storeIds l).Nodup) {r1 r2 : MessageInfo} (h1 : r1 ∈ l)
    (h2 : r2 ∈ l) (he : r1.id = r2.id) : r1 = r2 :=
  List.inj_on_of_nodup_map hnd h1 h2 he

/-- Appending records (without touching existing ones) moves no record's
status. -/
theorem recordStatusStep_append (st : ChatState) (ext : List MessageInfo)
    (c' : Nat) : recordStatusStep st ⟨st.messages ++ ext, c'⟩ := by
  intro i r r' hr hr'
  simp only [lookupId] at hr hr'
  rw [find?_append_left_some ext hr] at hr'
  cases hr'
  exact .inl rfl

/-- Removing records and appending records with brand-new ids moves no
record's status (for a store with pairwise-distinct ids). -/
theorem recordStatusStep_filter_append (st : ChatState)
    (p : MessageInfo → Bool) (ext : List MessageInfo) (c' : Nat)
    (hnd : (storeIds st.messages).Nodup)
    (hfresh : ∀ e ∈ ext, e.id ∉ storeIds st.messages) :
    recordStatusStep st ⟨st.messages.filter p ++ ext, c'⟩ := by
  intro i r r' hr hr'
  simp only [lookupId] at hr hr'
  have hrmem : r ∈ st.messages := List.mem_of_find?_eq_some hr
  have hrid : r.id = i := by simpa using List.find?_some hr
  have hr'mem : r' ∈ st.messages.filter p ++ ext :=
    List.mem_of_find?_eq_some hr'
  have hr'id : r'.id = i := by simpa using List.find?_some hr'
  rcases List.mem_append.mp hr'mem with h | h
  · have h2 : r' ∈ st.messages := (List.filter_sublist _).subset h
    rw [eq_of_nodup_ids hnd hrmem h2 (hrid.trans hr'id.symm)]
    exact .inl rfl
  · exact absurd (by rw [hr'id, ← hrid, storeIds, List.mem_map]
                     exact ⟨r, hrmem, rfl⟩)
      (hfresh r' h)

/-- Rewriting the payload and status of the one record carrying a given
id in place is a `statusStep` on every record, provided the status move
itself is one. -/
theorem recordStatusStep_inplace (base : List MessageInfo) (lid : MsgId)
    (u v : Val) (s1 s2 : MessageStatus) (c c' : Nat)
    (hs : statusStep s1 s2) :
    recordStatusStep ⟨base ++ [⟨lid, u, s1⟩], c⟩
      ⟨base ++ [⟨lid, v, s2⟩], c'⟩ := by
  intro i r r' hr hr'
  simp only [lookupId] at hr hr'
  rcases hbf : base.find? (fun info => info.id == i) with _ | rb
  · rw [find?_append_left_none _ hbf] at hr hr'
    by_cases hi : lid = i
    · subst hi
      rw [List.find?_cons_of_pos _ (by simp)] at hr hr'
      cases hr
      cases hr'
      exact hs
    · rw [List.find?_cons_of_neg _ (by simp [hi])] at hr
      exact absurd hr (by simp)
  · rw [find?_append_left_some _ hbf] at hr hr'
    cases hr
    cases hr'
    exact .inl rfl

/-- The ids of a store extended by one record with a fresh id are still
pairwise distinct. -/
theorem nodup_ids_concat {base : List MessageInfo} {lid : MsgId}
    (hbase : ∀ info ∈ base, info.id ≠ lid)
    (hndbase : (storeIds base).Nodup) (u : Val) (s : MessageStatus) :
    (storeIds (base ++ [⟨lid, u, s⟩])).Nodup := by
  rw [storeIds, List.map_append, List.nodup_append]
  refine ⟨hndbase, by simp, ?_⟩
  intro a ha hb
  rw [List.mem_map] at ha
  obtain ⟨info, hinfo, rfl⟩ := ha
  simp only [List.map_cons, List.map_nil, List.mem_singleton] at hb
  exact hbase info hinfo hb

/-- The id generated from the store's current counter is carried by no
record of a well-formed store. -/
theorem msgId_counter_fresh {st : ChatState} (hb : idsBelowB st = true) :
    (MsgId.msgId st.idCounter) ∉ storeIds st.messages := by
  intro hmem
  rw [storeIds, List.mem_map] at hmem
  obtain ⟨info, hinfo, hid⟩ := hmem
  exact absurd hid (ne_msgId_of_idsBelow hb (le_refl _) info hinfo)

/-- The create-and-replace branch of `updateMessage` (no live id yet)
moves no surviving record's status. -/
theorem recordStatusStep_fresh_branch (st : ChatState) (msg : Val)
    (lopt : Option MsgId) (v : Val) (s : MessageStatus)
    (hnd : (storeIds st.messages).Nodup) (hb : idsBelowB st = true) :
    recordStatusStep st (updateMessage st ⟨msg, lopt, none⟩ v s).1 := by
  rw [updateMessage_fresh]
  apply recordStatusStep_filter_append st _ _ _ hnd
  intro e he
  rw [List.mem_singleton] at he
  subst he
  exact msgId_counter_fresh hb

/-- The whole `onError` handling — for any request context — moves no
surviving record's status: it only removes records and possibly appends
one freshly generated `error` record. -/
theorem recordStatusStep_onErrorEvent (cfg : XChatConfig) (err : String)
    (st : ChatState) (ctx : RequestCtx)
    (hnd : (storeIds st.messages).Nodup) (hb : idsBelowB st = true) :
    recordStatusStep st (onErrorEvent cfg err st ctx) := by
  rcases hres : resolveFallback cfg.requestFallback ctx.origMessage err st
      with _ | fb
  · simp only [onErrorEvent, hres]
    have := recordStatusStep_filter_append st
      (fun info => !(idEqOpt info.id ctx.loadingMsgId)
        && !(idEqOpt info.id ctx.updatingMsgId)) [] st.idCounter hnd (by simp)
    simpa using this
  · simp only [onErrorEvent, hres, createMessage]
    apply recordStatusStep_filter_append st _ _ _ hnd
    intro e he
    rw [List.mem_singleton] at he
    subst he
    exact msgId_counter_fresh hb

/-- An update trace always starts with its initial state. -/
theorem updateTrace_shape (s : ChatState × RequestCtx) (us : List Val) :
    ∃ t, updateTrace s us = s :: t := by
  cases us with
  | nil => exact ⟨[], rfl⟩
  | cons u us => exact ⟨_, rfl⟩

/-- Unfolding one step of an update trace. -/
theorem updateTrace_cons (st : ChatState) (ctx : RequestCtx) (u : Val)
    (us : List Val) :
    updateTrace (st, ctx) (u :: us)
      = (st, ctx) :: updateTrace (onUpdateEvent st ctx u) us := rfl

/-- The last store of an update trace is the store after all updates. -/
theorem updateTrace_getLast (s : ChatState × RequestCtx) (us : List Val) :
    ((updateTrace s us).map Prod.fst).getLast? = some (runUpdates s us).1 := by
  induction us generalizing s with
  | nil => rfl
  | cons u us ih =>
      obtain ⟨t, ht⟩ := updateTrace_shape (onUpdateEvent s.1 s.2 u) us
      have ih' := ih (onUpdateEvent s.1 s.2 u)
      rw [ht] at ih'
      simp only [List.map_cons] at ih'
      show ((s :: updateTrace (onUpdateEvent s.1 s.2 u) us).map
        Prod.fst).getLast? = _
      rw [ht]
      simp only [List.map_cons]
      rw [List.getLast?_cons_cons]
      exact ih'

/-- A fully established update trace is a `recordStatusStep` chain: every
step rewrites the live record in place, `loading` to `loading`. -/
theorem chain_trace_established (base : List MessageInfo) (lid : MsgId)
    (hbase : ∀ info ∈ base, info.id ≠ lid) (msg : Val) (lopt : Option MsgId)
    (cnt : Nat) : ∀ (us : List Val) (u : Val),
    List.Chain' recordStatusStep
      ((updateTrace (⟨base ++ [⟨lid, u, .loading⟩], cnt⟩,
          (⟨msg, lopt, some lid⟩ : RequestCtx)) us).map Prod.fst) := by
  intro us
  induction us with
  | nil =>
      intro u
      simp [updateTrace]
  | cons v vs ih =>
      intro u
      have h1 : onUpdateEvent (⟨base ++ [⟨lid, u, .loading⟩], cnt⟩ : ChatState)
          (⟨msg, lopt, some lid⟩ : RequestCtx) v
          = (⟨base ++ [⟨lid, v, .loading⟩], cnt⟩, ⟨msg, lopt, some lid⟩) :=
        updateMessage_established base lid u v .loading cnt msg lopt .loading hbase
      rw [updateTrace_cons, h1, List.map_cons]
      rw [List.chain'_cons']
      refine ⟨?_, ih v⟩
      obtain ⟨t, ht⟩ := updateTrace_shape
        (⟨base ++ [⟨lid, v, .loading⟩], cnt⟩, (⟨msg, lopt, some lid⟩ : RequestCtx)) vs
      rw [ht]
      simp only [List.map_cons, List.head?_cons, Option.mem_some_iff]
      intro y hy
      subst hy
      exact recordStatusStep_inplace base lid u v .loading .loading cnt cnt
        (.inl rfl)

/-- Pairwise-distinct ids survive dropping a right append. -/
theorem nodup_append_left_ids {l1 l2 : List MessageInfo}
    (h : (storeIds (l1 ++ l2)).Nodup) : (storeIds l1).Nodup := by
  rw [storeIds, List.map_append] at h
  exact (List.nodup_append.mp h).1

/-- The ids of a store do not depend on a trailing record's payload or
status. -/
theorem storeIds_concat_payload (base : List MessageInfo) (lid : MsgId)
    (u w : Val) (s s' : MessageStatus) :
    storeIds (base ++ [⟨lid, u, s⟩]) = storeIds (base ++ [⟨lid, w, s'⟩]) := by
  simp [storeIds]

/-- Counter well-formedness does not depend on a trailing record's
payload or status. -/
theorem idsBelowB_concat_payload (base : List MessageInfo) (lid : MsgId)
    (u w : Val) (s s' : MessageStatus) (cnt : Nat) :
    idsBelowB ⟨base ++ [⟨lid, u, s⟩], cnt⟩
      = idsBelowB ⟨base ++ [⟨lid, w, s'⟩], cnt⟩ := by
  simp [idsBelowB]

/-- Once the live record is established, the remaining update stream and
the terminal event form a `recordStatusStep` chain: updates rewrite the
live record `loading` → `loading` in place, `onSuccess` moves it to
`success`, and `onError` only removes records or appends a fresh `error`
record. -/
theorem chain_est_terminal (cfg : XChatConfig) (term : TerminalEvent)
    (base : List MessageInfo) (lid : MsgId)
    (hbase : ∀ info ∈ base, info.id ≠ lid)
    (hndbase : (storeIds base).Nodup) (msg : Val) (lopt : Option MsgId)
    (cnt : Nat)
    (hbelow : ∀ info ∈ base, ∀ n, info.id = .msgId n → n < cnt)
    (hlidlt : ∀ n, lid = .msgId n → n < cnt) :
    ∀ (us : List Val) (u : Val),
    List.Chain' recordStatusStep
      (((updateTrace (⟨base ++ [⟨lid, u, .loading⟩], cnt⟩,
            (⟨msg, lopt, some lid⟩ : RequestCtx)) us).map Prod.fst)
        ++ [applyTerminal cfg term (runUpdates
            (⟨base ++ [⟨lid, u, .loading⟩], cnt⟩, ⟨msg, lopt, some lid⟩) us)]) := by
  intro us u
  rw [List.chain'_append]
  refine ⟨chain_trace_established base lid hbase msg lopt cnt us u,
    List.chain'_singleton _, ?_⟩
  intro x hx y hy
  rw [updateTrace_getLast] at hx
  rw [runUpdates_established base lid hbase msg lopt cnt us u] at hx hy
  simp only [Option.mem_some_iff] at hx
  simp only [List.head?_cons, Option.mem_some_iff] at hy
  subst hx
  subst hy
  cases term with
  | succeed m =>
      have hstep := updateMessage_established base lid (us.getLastD u) m
        .loading cnt msg lopt .success hbase
      simp only [applyTerminal, onSuccessEvent]
      rw [hstep]
      exact recordStatusStep_inplace base lid (us.getLastD u) m .loading
        .success cnt cnt (.inr ⟨rfl, .inl rfl⟩)
  | fail e =>
      have hb' : idsBelowB ⟨base ++ [⟨lid, us.getLastD u, .loading⟩], cnt⟩
          = true := by
        apply idsBelowB_intro
        intro info hi n hn
        rcases List.mem_append.mp hi with h | h
        · exact hbelow info h n hn
        · rw [List.mem_singleton] at h
          subst h
          exact hlidlt n hn
      exact recordStatusStep_onErrorEvent cfg e _ _
        (nodup_ids_concat hbase hndbase _ _) hb'

/-- C8: under the agent contract — any number of `onUpdate` events
followed by exactly one terminal `onSuccess` or `onError` per submission
— every pair of consecutive store snapshots of a submission lifecycle
satisfies `recordStatusStep`: a record present in both snapshots keeps
its status or moves from `loading` to `success`/`error`.  In particular a
`local` record never changes status, a `loading` record only ever becomes
`success` or `error`, and no record leaves `success` or `error` (removal
of a record is not a transition). -/
theorem status_one_directional (cfg : XChatConfig) (msg : Val)
    (updates : List Val) (term : TerminalEvent) (st0 : ChatState)
    (_hag : cfg.agent = true) (hnd : (storeIds st0.messages).Nodup)
    (hb : idsBelowB st0 = true) :
    List.Chain' recordStatusStep (lifecycleStates cfg msg updates term st0) := by
  rcases hres : resolvePlaceholder cfg.requestPlaceholder msg
      (st0.messages ++ [⟨.msgId st0.idCounter, msg, .«local»⟩]) with _ | pv
  · have hbody := onRequestBody_no_placeholder cfg msg st0 hres
    have hnd1 : (storeIds (st0.messages
        ++ [⟨.msgId st0.idCounter, msg, .«local»⟩])).Nodup := by
      obtain ⟨_, _, hndp, _⟩ := goodStep_onRequestBody cfg msg st0
      have := hndp hnd hb
      rw [hbody] at this
      exact this
    have hb1 : idsBelowB ⟨st0.messages
        ++ [⟨.msgId st0.idCounter, msg, .«local»⟩], st0.idCounter + 1⟩
        = true := by
      obtain ⟨_, _, _, hbp⟩ := goodStep_onRequestBody cfg msg st0
      have := hbp hb
      rw [hbody] at this
      exact this
    simp only [lifecycleStates, streamScenario, hbody]
    cases updates with
    | nil =>
        simp only [updateTrace, List.map_cons, List.map_nil, List.cons_append,
          List.nil_append, runUpdates_nil]
        rw [List.chain'_cons, List.chain'_cons]
        refine ⟨recordStatusStep_append st0 _ _, ?_, List.chain'_singleton _⟩
        cases term with
        | succeed m =>
            exact recordStatusStep_fresh_branch _ msg none m .success hnd1 hb1
        | fail e =>
            exact recordStatusStep_onErrorEvent cfg e _ _ hnd1 hb1
    | cons u us =>
        have h1 : onUpdateEvent
            (⟨st0.messages ++ [⟨.msgId st0.idCounter, msg, .«local»⟩],
              st0.idCounter + 1⟩ : ChatState)
            (⟨msg, none, none⟩ : RequestCtx) u
            = (⟨(st0.messages ++ [⟨.msgId st0.idCounter, msg, .«local»⟩])
                  ++ [⟨.msgId (st0.idCounter + 1), u, .loading⟩],
                st0.idCounter + 1 + 1⟩,
               ⟨msg, none, some (.msgId (st0.idCounter + 1))⟩) := by
          simp only [onUpdateEvent]
          rw [updateMessage_fresh, filter_not_none]
        have hbase := base_fresh st0 msg hb (Nat.lt_succ_self _)
        rw [updateTrace_cons, runUpdates_cons, h1]
        simp only [List.map_cons, List.cons_append]
        rw [List.chain'_cons]
        refine ⟨recordStatusStep_append st0 _ _, ?_⟩
        rw [List.chain'_cons']
        constructor
        · obtain ⟨t, ht⟩ := updateTrace_shape
            (⟨(st0.messages ++ [⟨.msgId st0.idCounter, msg, .«local»⟩])
                ++ [⟨.msgId (st0.idCounter + 1), u, .loading⟩],
              st0.idCounter + 1 + 1⟩,
             (⟨msg, none, some (.msgId (st0.idCounter + 1))⟩ : RequestCtx)) us
          rw [ht]
          simp only [List.map_cons, List.cons_append, List.head?_cons,
            Option.mem_some_iff]
          intro y hy
          subst hy
          have hR := recordStatusStep_fresh_branch
            (⟨st0.messages ++ [⟨.msgId st0.idCounter, msg, .«local»⟩],
              st0.idCounter + 1⟩ : ChatState) msg none u .loading hnd1 hb1
          rw [updateMessage_fresh, filter_not_none] at hR
          exact hR
        · apply chain_est_terminal cfg term _ _ hbase hnd1 msg none _ ?_ ?_
          · intro info hi n hn
            rcases List.mem_append.mp hi with h | h
            · have := idsBelowB_elim hb h hn
              omega
            · rw [List.mem_singleton] at h
              subst h
              have h2 : MsgId.msgId st0.idCounter = .msgId n := hn
              injection h2 with h3
              omega
          · intro n hn
            injection hn with h3
            omega
  · have hbody := onRequestBody_placeholder cfg msg pv st0 hres
    have hnd1 : (storeIds ((st0.messages
        ++ [⟨.msgId st0.idCounter, msg, .«local»⟩])
        ++ [⟨.msgId (st0.idCounter + 1), pv, .loading⟩])).Nodup := by
      obtain ⟨_, _, hndp, _⟩ := goodStep_onRequestBody cfg msg st0
      have := hndp hnd hb
      rw [hbody] at this
      exact this
    have hb1 : idsBelowB ⟨(st0.messages
        ++ [⟨.msgId st0.idCounter, msg, .«local»⟩])
        ++ [⟨.msgId (st0.idCounter + 1), pv, .loading⟩], st0.idCounter + 2⟩
        = true := by
      obtain ⟨_, _, _, hbp⟩ := goodStep_onRequestBody cfg msg st0
      have := hbp hb
      rw [hbody] at this
      exact this
    have hstep0 : recordStatusStep st0
        ⟨(st0.messages ++ [⟨.msgId st0.idCounter, msg, .«local»⟩])
          ++ [⟨.msgId (st0.idCounter + 1), pv, .loading⟩],
          st0.idCounter + 2⟩ := by
      have := recordStatusStep_append st0
        ([⟨.msgId st0.idCounter, msg, .«local»⟩]
          ++ [⟨.msgId (st0.idCounter + 1), pv, .loading⟩]) (st0.idCounter + 2)
      rw [← List.append_assoc] at this
      exact this
    simp only [lifecycleStates, streamScenario, hbody]
    cases updates with
    | nil =>
        simp only [updateTrace, List.map_cons, List.map_nil, List.cons_append,
          List.nil_append, runUpdates_nil]
        rw [List.chain'_cons, List.chain'_cons]
        refine ⟨hstep0, ?_, List.chain'_singleton _⟩
        cases term with
        | succeed m =>
            exact recordStatusStep_fresh_branch _ msg
              (some (.msgId (st0.idCounter + 1))) m .success hnd1 hb1
        | fail e =>
            exact recordStatusStep_onErrorEvent cfg e _ _ hnd1 hb1
    | cons u us =>
        have hbase1 := base_fresh st0 msg hb (Nat.lt_succ_self _)
        have hbase2 := base_fresh st0 msg hb
          (show st0.idCounter < st0.idCounter + 2 by omega)
        have h1 : onUpdateEvent
            (⟨(st0.messages ++ [⟨.msgId st0.idCounter, msg, .«local»⟩])
                ++ [⟨.msgId (st0.idCounter + 1), pv, .loading⟩],
              st0.idCounter + 2⟩ : ChatState)
            (⟨msg, some (.msgId (st0.idCounter + 1)), none⟩ : RequestCtx) u
            = (⟨(st0.messages ++ [⟨.msgId st0.idCounter, msg, .«local»⟩])
                  ++ [⟨.msgId (st0.idCounter + 2), u, .loading⟩],
                st0.idCounter + 2 + 1⟩,
               ⟨msg, some (.msgId (st0.idCounter + 1)),
                some (.msgId (st0.idCounter + 2))⟩) := by
          simp only [onUpdateEvent]
          rw [updateMessage_fresh]
          rw [filter_append_single_drop
            (by intro info hi; simp [idEqOpt, hbase1 info hi])
            (by simp [idEqOpt])]
        rw [updateTrace_cons, runUpdates_cons, h1]
        simp only [List.map_cons, List.cons_append]
        rw [List.chain'_cons]
        refine ⟨hstep0, ?_⟩
        rw [List.chain'_cons']
        constructor
        · obtain ⟨t, ht⟩ := updateTrace_shape
            (⟨(st0.messages ++ [⟨.msgId st0.idCounter, msg, .«local»⟩])
                ++ [⟨.msgId (st0.idCounter + 2), u, .loading⟩],
              st0.idCounter + 2 + 1⟩,
             (⟨msg, some (.msgId (st0.idCounter + 1)),
               some (.msgId (st0.idCounter + 2))⟩ : RequestCtx)) us
          rw [ht]
          simp only [List.map_cons, List.cons_append, List.head?_cons,
            Option.mem_some_iff]
          intro y hy
          subst hy
          have hR := recordStatusStep_fresh_branch
            (⟨(st0.messages ++ [⟨.msgId st0.idCounter, msg, .«local»⟩])
                ++ [⟨.msgId (st0.idCounter + 1), pv, .loading⟩],
              st0.idCounter + 2⟩ : ChatState) msg
            (some (.msgId (st0.idCounter + 1))) u .loading hnd1 hb1
          rw [updateMessage_fresh] at hR
          rw [filter_append_single_drop
            (by intro info hi; simp [idEqOpt, hbase1 info hi])
            (by simp [idEqOpt])] at hR
          exact hR
        · apply chain_est_terminal cfg term _ _ hbase2
            (nodup_append_left_ids hnd1) msg
            (some (.msgId (st0.idCounter + 1))) _ ?_ ?_
          · intro info hi n hn
            rcases List.mem_append.mp hi with h | h
            · have := idsBelowB_elim hb h hn
              omega
            · rw [List.mem_singleton] at h
              subst h
              have h2 : MsgId.msgId st0.idCounter = .msgId n := hn
              injection h2 with h3
              omega
          · intro n hn
            injection hn with h3
            omega

/-- Witness for C8: placeholder, two updates and a success from the empty
store. -/
theorem status_one_directional_witness :
    List.Chain' recordStatusStep
      (lifecycleStates samplePhCfg (.str "q") [.str "a1", .str "a2"]
        (.succeed (.str "done")) sampleChat) :=
  status_one_directional samplePhCfg (.str "q") [.str "a1", .str "a2"]
    (.succeed (.str "done")) sampleChat rfl (by decide) (by decide)

/-- C7: `onRequest` throws the configuration error exactly when no agent
is configured, and in that case the store is returned untouched (the
check precedes every mutation); with an agent it never throws. -/
theorem onRequest_config_error (cfg : XChatConfig) (message : Val) (st : ChatState) :
    (cfg.agent = false → onRequest cfg message st = (st, .error configErrorMsg)) ∧
      (cfg.agent = true →
        onRequest cfg message st
          = ((onRequestBody cfg message st).1, .ok (onRequestBody cfg message st).2)) := by
  constructor <;> intro h <;> simp [onRequest, h]

/-- Witness for C7: a config without an agent throws with the store
untouched; one with an agent does not throw. -/
theorem onRequest_config_error_witness :
    onRequest sampleNoAgentCfg (.str "hi") sampleChat
        = (sampleChat, .error configErrorMsg) ∧
      onRequest sampleAgentCfg (.str "hi") sampleChat
        = ((onRequestBody sampleAgentCfg (.str "hi") sampleChat).1,
           .ok (onRequestBody sampleAgentCfg (.str "hi") sampleChat).2) :=
  ⟨(onRequest_config_error sampleNoAgentCfg (.str "hi") sampleChat).1 rfl,
   (onRequest_config_error sampleAgentCfg (.str "hi") sampleChat).2 rfl⟩

/-- C9: read-your-own-writes for the message store cell — immediately
after a setter call (with a plain value or an updater function) the
synchronous getter returns the newly committed value, even though the
reactive value has not yet been propagated to observers. -/
theorem syncState_read_your_writes {α : Type} (s : SyncState α)
    (arg : SyncSetterArg α) :
    (s.setValue arg).getValue = arg.apply s.getValue ∧
      (s.setValue arg).reactive = s.reactive :=
  ⟨rfl, rfl⟩

/-- C10: a falsy static placeholder makes `submit` behave exactly as with
no placeholder configured, and a falsy static fallback makes `onError`
take the no-fallback removal path. -/
theorem falsy_config_ignored (cfg : XChatConfig) (v : Val) (message : Val)
    (st : ChatState) (err : String) (ctx : RequestCtx)
    (h : v.truthy = false) :
    onRequest { cfg with requestPlaceholder := some (.inl v) } message st
        = onRequest { cfg with requestPlaceholder := none } message st ∧
      onErrorEvent { cfg with requestFallback := some (.inl v) } err st ctx
        = onErrorEvent { cfg with requestFallback := none } err st ctx := by
  constructor
  · simp [onRequest, onRequestBody, resolvePlaceholder, h]
  · simp [onErrorEvent, resolveFallback, h]

/-- Witness for C10 with the falsy placeholder/fallback value `''`. -/
theorem falsy_config_ignored_witness :
    onRequest { sampleAgentCfg with requestPlaceholder := some (.inl (.str "")) }
          (.str "m") sampleChat
        = onRequest { sampleAgentCfg with requestPlaceholder := none }
          (.str "m") sampleChat ∧
      onErrorEvent { sampleAgentCfg with requestFallback := some (.inl (.str "")) }
          "e" sampleChat ⟨.str "m", none, none⟩
        = onErrorEvent { sampleAgentCfg with requestFallback := none }
          "e" sampleChat ⟨.str "m", none, none⟩ :=
  falsy_config_ignored sampleAgentCfg (.str "") (.str "m") sampleChat "e"
    ⟨.str "m", none, none⟩ (by decide)

end XChat
